import Mathlib

/-!
Verification development for a retrieval-augmented question-answering
pipeline (src/rag.py).  The pipeline chunks documents, embeds the chunks
into a vector index, persists the index, and answers questions by
retrieving the top-k chunks, rendering them into a fixed prompt template
and sending the prompt to a language model.

Texts are modelled as lists of characters; vectors as lists of rationals.
Components whose executable body lives in external libraries (the FAISS
vector store, the text splitter, the retrieval chain) are modelled from
the specification where noted; everything taken verbatim from src/rag.py
is marked as such.
-/

/-! ## Prompt template (src/rag.py lines 21-33, verbatim)

The template string of src/rag.py is split here into named segments:
the text before the context placeholder, the text between the context
placeholder and the question placeholder, and the trailing text.  The
grounding instruction sentence is kept as its own segment so that
theorems can refer to it. -/

/-- Leading part of the template up to the refusal instruction. -/
def tmpl_head : List Char :=
  ("\nHuman: Use the following pieces of context to provide a \nconcise answer to the question at the end but summarize with \nat least 250 words with detailed explanations. ").toList

/-- The explicit refusal instruction of the template: if the model does
not know the answer it must say so rather than fabricate one. -/
def dont_know_instruction : List Char :=
  ("If you don\x27t know the answer, \njust say that you don\x27t know, don\x27t try to make up an answer.").toList

/-- Opening tag of the context block. -/
def ctx_open : List Char := ("\n<context>\n").toList

/-- Everything of the template that precedes the context placeholder. -/
def tmpl_pre : List Char := tmpl_head ++ dont_know_instruction ++ ctx_open

/-- Template text between the context placeholder and the question
placeholder. -/
def tmpl_mid : List Char := ("\n</context>\n\nQuestion: ").toList

/-- Template text after the question placeholder. -/
def tmpl_post : List Char := ("\n\nAssistant:\n").toList

/-! ## Prompt assembly

Modelled from the spec: the stuff-chain that fills the template joins the
retrieved chunk texts in retrieval order with a fixed deterministic
delimiter (a blank line); the joined block is substituted for the context
placeholder and the query for the question placeholder.  The template
segments themselves are the src/rag.py literal. -/

/-- Delimiter placed between consecutive chunk texts in the context
block. -/
def doc_separator : List Char := ("\n\n").toList

/-- The rendered context block: chunk texts joined by the delimiter. -/
def contextBlock : List (List Char) → List Char
  | [] => []
  | [t] => t
  | t :: ts => t ++ doc_separator ++ contextBlock ts

/-- Prompt assembly: substitute the context block and the question into
the fixed template.  A pure function of the retrieval result and the
query. -/
def assemble (result : List (List Char)) (question : List Char) : List Char :=
  tmpl_pre ++ contextBlock result ++ tmpl_mid ++ question ++ tmpl_post

/-- The texts of `ts` occur verbatim, in order and without overlap,
inside `s`. -/
def appears_in_order : List (List Char) → List Char → Prop
  | [], _ => True
  | t :: ts, s => ∃ u v, s = u ++ t ++ v ∧ appears_in_order ts v

lemma appears_in_order_append_left (ts : List (List Char)) (w s : List Char)
    (h : appears_in_order ts s) : appears_in_order ts (w ++ s) := by
  cases ts with
  | nil => trivial
  | cons t ts =>
    obtain ⟨u, v, hs, hrest⟩ := h
    exact ⟨w ++ u, v, by rw [hs]; simp, hrest⟩

lemma appears_in_order_append_right (ts : List (List Char)) (s w : List Char)
    (h : appears_in_order ts s) : appears_in_order ts (s ++ w) := by
  induction ts generalizing s w with
  | nil => trivial
  | cons t ts ih =>
    obtain ⟨u, v, hs, hrest⟩ := h
    exact ⟨u, v ++ w, by rw [hs]; simp, ih v w hrest⟩

lemma appears_in_order_contextBlock (ts : List (List Char)) :
    appears_in_order ts (contextBlock ts) := by
  induction ts with
  | nil => trivial
  | cons t ts ih =>
    cases ts with
    | nil => exact ⟨[], [], by simp [contextBlock], trivial⟩
    | cons t2 ts2 =>
      refine ⟨[], doc_separator ++ contextBlock (t2 :: ts2), by simp [contextBlock], ?_⟩
      exact appears_in_order_append_left _ _ _ ih

/-- Claim C1: prompt assembly is a pure deterministic function of the
retrieval result and the question: assembling twice yields identical
text, the prompt is exactly the fixed template around the rendered
context block, and every retrieved chunk text appears verbatim and in
retrieval order inside the rendered context block. -/
theorem c1_assemble_pure_and_grounded (result : List (List Char)) (question : List Char) :
    assemble result question = assemble result question ∧
    assemble result question =
      tmpl_pre ++ contextBlock result ++ tmpl_mid ++ question ++ tmpl_post ∧
    appears_in_order result (contextBlock result) ∧
    appears_in_order result (assemble result question) := by
  refine ⟨rfl, rfl, appears_in_order_contextBlock result, ?_⟩
  have h : assemble result question =
      tmpl_pre ++ (contextBlock result ++ (tmpl_mid ++ question ++ tmpl_post)) := by
    simp [assemble]
  rw [h]
  exact appears_in_order_append_left _ _ _
    (appears_in_order_append_right _ _ _ (appears_in_order_contextBlock result))

/-- Claim C7: on an empty retrieval result the assembled prompt has an
empty context block, yet still contains the full refusal instruction
telling the model to say it does not know rather than fabricate an
answer. -/
theorem c7_empty_context_still_instructs_refusal (question : List Char) :
    contextBlock [] = [] ∧
    assemble [] question = tmpl_pre ++ tmpl_mid ++ question ++ tmpl_post ∧
    ∃ u v, assemble [] question = u ++ dont_know_instruction ++ v := by
  refine ⟨rfl, by simp [assemble, contextBlock], ?_⟩
  refine ⟨tmpl_head, ctx_open ++ tmpl_mid ++ question ++ tmpl_post, ?_⟩
  simp [assemble, contextBlock, tmpl_pre]

/-! ## Vector store: entries, similarity and search

Modelled from the spec: the FAISS vector store of src/rag.py is library
code; the spec describes it as a collection of (chunk, vector) pairs with
a fixed similarity metric, searched by ranking entries by descending
similarity with ties broken by the original insertion order, and with
k at most zero rejected as an invalid argument. -/

/-- One stored entry: a chunk text together with its embedding vector. -/
structure IndexEntry where
  text : List Char
  vec : List ℚ
deriving DecidableEq, Repr

/-- Inner-product similarity between two vectors, the fixed metric. -/
def dot (a b : List ℚ) : ℚ := (List.zipWith (fun x y => x * y) a b).sum

/-- An entry scored against a query: original insertion position,
similarity score, and the entry itself. -/
structure Scored where
  pos : ℕ
  score : ℚ
  entry : IndexEntry
deriving DecidableEq, Repr

/-- Ranking order: higher score first; equal scores keep insertion
order. -/
def score_order (a b : Scored) : Prop :=
  b.score < a.score ∨ (a.score = b.score ∧ a.pos ≤ b.pos)

instance : DecidableRel score_order := fun a b => by
  unfold score_order; infer_instance

instance : IsTotal Scored score_order := by
  constructor
  intro a b
  rcases lt_trichotomy a.score b.score with h | h | h
  · exact Or.inr (Or.inl h)
  · rcases Nat.le_total a.pos b.pos with hp | hp
    · exact Or.inl (Or.inr ⟨h, hp⟩)
    · exact Or.inr (Or.inr ⟨h.symm, hp⟩)
  · exact Or.inl (Or.inl h)

instance : IsTrans Scored score_order := by
  constructor
  intro a b c hab hbc
  rcases hab with hab | ⟨hab, pab⟩
  · rcases hbc with hbc | ⟨hbc, _⟩
    · exact Or.inl (lt_trans hbc hab)
    · exact Or.inl (hbc ▸ hab)
  · rcases hbc with hbc | ⟨hbc, pbc⟩
    · exact Or.inl (hab ▸ hbc)
    · exact Or.inr ⟨hab.trans hbc, pab.trans pbc⟩

/-- Score every entry of the store against the query, remembering each
entry its insertion position. -/
def mk_scored (idx : List IndexEntry) (q : List ℚ) : List Scored :=
  idx.enum.map (fun p => ⟨p.1, dot q p.2.vec, p.2⟩)

/-- The ranked search payload: entries sorted by descending similarity
(ties by insertion order), truncated to the first k, each paired with
its score. -/
def searchCore (idx : List IndexEntry) (q : List ℚ) (k : ℕ) :
    List (IndexEntry × ℚ) :=
  ((List.insertionSort score_order (mk_scored idx q)).take k).map
    (fun s => (s.entry, s.score))

inductive SearchError where
  | invalidArgument
deriving DecidableEq, Repr

/-- Nearest-neighbour search: k at most zero is rejected, otherwise the
ranked top-k payload is returned. -/
def search (idx : List IndexEntry) (q : List ℚ) (k : ℤ) :
    Except SearchError (List (IndexEntry × ℚ)) :=
  if k ≤ 0 then .error .invalidArgument else .ok (searchCore idx q k.toNat)

lemma enum_map_entry (idx : List IndexEntry) (q : List ℚ) :
    (mk_scored idx q).map Scored.entry = idx := by
  unfold mk_scored
  rw [List.map_map]
  have : (Scored.entry ∘ fun p : ℕ × IndexEntry => Scored.mk p.1 (dot q p.2.vec) p.2)
      = Prod.snd := by
    funext p; rfl
  rw [this, List.enum_map_snd]

lemma mk_scored_length (idx : List IndexEntry) (q : List ℚ) :
    (mk_scored idx q).length = idx.length := by
  simp [mk_scored]

lemma searchCore_length (idx : List IndexEntry) (q : List ℚ) (k : ℕ) :
    (searchCore idx q k).length = min k idx.length := by
  simp [searchCore, mk_scored_length]

lemma searchCore_sorted (idx : List IndexEntry) (q : List ℚ) (k : ℕ) :
    List.Chain' (fun a b : IndexEntry × ℚ => b.2 ≤ a.2) (searchCore idx q k) := by
  apply List.Pairwise.chain'
  unfold searchCore
  rw [List.pairwise_map]
  have hs : List.Pairwise score_order
      (List.insertionSort score_order (mk_scored idx q)) :=
    List.sorted_insertionSort score_order (mk_scored idx q)
  have ht : List.Pairwise score_order
      ((List.insertionSort score_order (mk_scored idx q)).take k) :=
    hs.sublist (List.take_sublist k _)
  refine ht.imp ?_
  intro a b hab
  rcases hab with h | ⟨h, _⟩
  · exact le_of_lt h
  · exact le_of_eq h.symm

lemma searchCore_all (idx : List IndexEntry) (q : List ℚ) (k : ℕ)
    (h : idx.length ≤ k) :
    ((searchCore idx q k).map Prod.fst).Perm idx := by
  unfold searchCore
  have hlen : (List.insertionSort score_order (mk_scored idx q)).length ≤ k := by
    rw [List.length_insertionSort, mk_scored_length]; exact h
  rw [List.take_of_length_le hlen, List.map_map]
  have hmap : (Prod.fst ∘ fun s : Scored => (s.entry, s.score)) = Scored.entry := by
    funext s; rfl
  rw [hmap]
  have hperm :=
    (List.perm_insertionSort score_order (mk_scored idx q)).map Scored.entry
  rw [enum_map_entry idx q] at hperm
  exact hperm

/-- Claim C6: search with a positive k returns the ranked payload, of
length exactly min k (index size) and hence at most k, sorted by
non-increasing similarity; when the index has at most k entries the
result is a ranking of all of them; and any k at most zero fails with
the invalid-argument error. -/
theorem c6_search_contract (idx : List IndexEntry) (q : List ℚ) (k : ℤ)
    (hk : 0 < k) :
    search idx q k = .ok (searchCore idx q k.toNat) ∧
    (searchCore idx q k.toNat).length = min k.toNat idx.length ∧
    List.Chain' (fun a b : IndexEntry × ℚ => b.2 ≤ a.2) (searchCore idx q k.toNat) ∧
    (idx.length ≤ k.toNat → ((searchCore idx q k.toNat).map Prod.fst).Perm idx) ∧
    (∀ k2 : ℤ, k2 ≤ 0 → search idx q k2 = .error .invalidArgument) := by
  refine ⟨?_, searchCore_length idx q k.toNat, searchCore_sorted idx q k.toNat,
    searchCore_all idx q k.toNat, ?_⟩
  · simp [search, not_le.mpr hk]
  · intro k2 hk2
    simp [search, hk2]

/-- Concrete fixtures for witnesses: a two-entry store and a query. -/
def store_fixture : List IndexEntry :=
  [⟨("alpha").toList, [1, 0]⟩, ⟨("beta").toList, [0, 1]⟩]

def query_fixture : List ℚ := [1, 2]

/-- Witness for claim C6 at the concrete store: k = 5 succeeds with both
entries ranked, k = -2 is rejected. -/
theorem c6_search_contract_witness :
    search store_fixture query_fixture 5 =
      .ok (searchCore store_fixture query_fixture (5 : ℤ).toNat) ∧
    (searchCore store_fixture query_fixture (5 : ℤ).toNat).length =
      min (5 : ℤ).toNat store_fixture.length ∧
    search store_fixture query_fixture (-2) = .error .invalidArgument := by
  have h := c6_search_contract store_fixture query_fixture 5 (by decide)
  exact ⟨h.1, h.2.1, h.2.2.2.2 (-2) (by decide)⟩

/-! ## Chunker

Modelled from the spec: the text splitter used by get_documents
(src/rag.py lines 49-54) is library code; the spec describes the chunker
as a window of max_size characters slid across the document text,
advancing by max_size - overlap each step, the final chunk possibly
shorter, an empty document yielding zero chunks and invalid parameters
rejected.  The step is represented as stride + 1 where
stride = max_size - overlap - 1, so that progress is positive by
construction. -/

/-- A chunk: a contiguous window of the document, with its start
offset. -/
structure Chunk where
  start : ℕ
  text : List Char
deriving DecidableEq, Repr

/-- The substring of `D` from position `a` (inclusive) to `b`
(exclusive), clipped to the document. -/
def docSlice (D : List Char) (a b : ℕ) : List Char := (D.drop a).take (b - a)

lemma docSlice_length (D : List Char) (a b : ℕ) :
    (docSlice D a b).length = min (b - a) (D.length - a) := by
  simp [docSlice]

/-- Emit the window at `start`, then continue `stride + 1` characters
further while the current window does not reach the end of the
document. -/
def chunkFrom (D : List Char) (m stride : ℕ) (start : ℕ) : List Chunk :=
  ⟨start, docSlice D start (start + m)⟩ ::
    (if h : start + m < D.length then chunkFrom D m stride (start + stride + 1)
     else [])
termination_by D.length - start
decreasing_by omega

inductive ChunkError where
  | invalidConfig
deriving DecidableEq, Repr

/-- The chunker: reject invalid parameters, return no chunks for an
empty document, otherwise slide the window from offset zero with step
m - o. -/
def chunk (D : List Char) (m o : ℕ) : Except ChunkError (List Chunk) :=
  if m = 0 then .error .invalidConfig
  else if m ≤ o then .error .invalidConfig
  else if D.length = 0 then .ok []
  else .ok (chunkFrom D m (m - o - 1) 0)

/-- Adjacency contract between consecutive chunks: the next chunk starts
exactly `o` characters before the previous one ends, and extends at
least as far. -/
def chunk_adjacent (o : ℕ) (c1 c2 : Chunk) : Prop :=
  c2.start + o = c1.start + c1.text.length ∧
  c1.start + c1.text.length ≤ c2.start + c2.text.length

lemma chunkFrom_text (D : List Char) (m stride : ℕ) :
    ∀ n start, D.length - start ≤ n →
      ∀ c ∈ chunkFrom D m stride start,
        c.text = docSlice D c.start (c.start + m) := by
  intro n
  induction n with
  | zero =>
    intro start hn c hc
    rw [chunkFrom] at hc
    have hcond : ¬ start + m < D.length := by omega
    rw [dif_neg hcond] at hc
    rcases List.mem_cons.mp hc with hc | hc
    · rw [hc]
    · cases hc
  | succ n ih =>
    intro start hn c hc
    rw [chunkFrom] at hc
    by_cases hcond : start + m < D.length
    · rw [dif_pos hcond] at hc
      rcases List.mem_cons.mp hc with hc | hc
      · rw [hc]
      · exact ih (start + stride + 1) (by omega) c hc
    · rw [dif_neg hcond] at hc
      rcases List.mem_cons.mp hc with hc | hc
      · rw [hc]
      · cases hc

lemma chunkFrom_len_le (D : List Char) (m stride : ℕ) (start : ℕ)
    (hn : D.length - start ≤ D.length) :
    ∀ c ∈ chunkFrom D m stride start, c.text.length ≤ m := by
  intro c hc
  have := chunkFrom_text D m stride D.length start hn c hc
  rw [this, docSlice_length]
  omega

lemma chunkFrom_coverage (D : List Char) (m stride : ℕ) (hsm : stride + 1 ≤ m) :
    ∀ n start, D.length - start ≤ n →
      ∀ i, start ≤ i → i < D.length →
        ∃ c ∈ chunkFrom D m stride start,
          c.start ≤ i ∧ i < c.start + c.text.length := by
  intro n
  induction n with
  | zero => intro start hn i hsi hi; omega
  | succ n ih =>
    intro start hn i hsi hi
    rw [chunkFrom]
    by_cases hcond : start + m < D.length
    · rw [dif_pos hcond]
      by_cases hin : i < start + m
      · refine ⟨⟨start, docSlice D start (start + m)⟩, List.mem_cons_self _ _, ?_, ?_⟩
        · exact hsi
        · simp only [docSlice_length]; omega
      · obtain ⟨c, hc, h1, h2⟩ :=
          ih (start + stride + 1) (by omega) i (by omega) hi
        exact ⟨c, List.mem_cons_of_mem _ hc, h1, h2⟩
    · rw [dif_neg hcond]
      refine ⟨⟨start, docSlice D start (start + m)⟩, List.mem_cons_self _ _, hsi, ?_⟩
      simp only [docSlice_length]; omega

lemma chunkFrom_chain (D : List Char) (m stride o : ℕ) (ho : stride + 1 + o = m) :
    ∀ n start, D.length - start ≤ n →
      List.Chain' (chunk_adjacent o) (chunkFrom D m stride start) := by
  intro n
  induction n with
  | zero =>
    intro start hn
    rw [chunkFrom]
    have hcond : ¬ start + m < D.length := by omega
    rw [dif_neg hcond]
    exact List.chain'_singleton _
  | succ n ih =>
    intro start hn
    rw [chunkFrom]
    by_cases hcond : start + m < D.length
    · rw [dif_pos hcond]
      rw [List.chain'_cons']
      constructor
      · intro y hy
        have hh : (chunkFrom D m stride (start + stride + 1)).head? =
            some ⟨start + stride + 1,
              docSlice D (start + stride + 1) (start + stride + 1 + m)⟩ := by
          rw [chunkFrom]
          rfl
        rw [hh] at hy
        simp only [Option.mem_def, Option.some.injEq] at hy
        subst hy
        constructor
        · simp only [docSlice_length]; omega
        · simp only [docSlice_length]; omega
      · exact ih (start + stride + 1) (by omega)
    · rw [dif_neg hcond]
      exact List.chain'_singleton _

lemma chunkFrom_dropLast (D : List Char) (m stride : ℕ) :
    ∀ n start, D.length - start ≤ n →
      ∀ c ∈ (chunkFrom D m stride start).dropLast, c.text.length = m := by
  intro n
  induction n with
  | zero =>
    intro start hn c hc
    rw [chunkFrom] at hc
    have hcond : ¬ start + m < D.length := by omega
    rw [dif_neg hcond] at hc
    simp at hc
  | succ n ih =>
    intro start hn c hc
    rw [chunkFrom] at hc
    by_cases hcond : start + m < D.length
    · rw [dif_pos hcond] at hc
      rcases hrest : chunkFrom D m stride (start + stride + 1) with _ | ⟨c1, rest1⟩
      · rw [chunkFrom] at hrest; simp at hrest
      · rw [hrest, List.dropLast_cons₂] at hc
        rcases List.mem_cons.mp hc with hc | hc
        · rw [hc]; simp only [docSlice_length]; omega
        · rw [← hrest] at hc
          exact ih (start + stride + 1) (by omega) c hc
    · rw [dif_neg hcond] at hc
      simp at hc

/-- Claim C5: for a valid configuration (positive window m, overlap o
below m) the chunker succeeds and: every character position of the
document is covered by some chunk; every chunk is the verbatim window
of the document at its offset; consecutive chunks overlap by exactly o
characters (the next chunk starts o before the previous ends and
reaches at least as far); every chunk except possibly the last has
length exactly m, and no chunk exceeds m. -/
theorem c5_chunk_coverage_and_overlap (D : List Char) (m o : ℕ)
    (hm : 0 < m) (ho : o < m) :
    ∃ cs, chunk D m o = .ok cs ∧
      (∀ i, i < D.length → ∃ c ∈ cs, c.start ≤ i ∧ i < c.start + c.text.length) ∧
      (∀ c ∈ cs, c.text = docSlice D c.start (c.start + m)) ∧
      List.Chain' (chunk_adjacent o) cs ∧
      (∀ c ∈ cs.dropLast, c.text.length = m) ∧
      (∀ c ∈ cs, c.text.length ≤ m) := by
  have hm0 : ¬ m = 0 := by omega
  have hmo : ¬ m ≤ o := by omega
  by_cases hD : D.length = 0
  · refine ⟨[], ?_, ?_, ?_, ?_, ?_, ?_⟩
    · simp [chunk, hm0, hmo, hD]
    · intro i hi; omega
    · intro c hc; cases hc
    · exact List.chain'_nil
    · intro c hc; cases hc
    · intro c hc; cases hc
  · refine ⟨chunkFrom D m (m - o - 1) 0, ?_, ?_, ?_, ?_, ?_, ?_⟩
    · simp [chunk, hm0, hmo, hD]
    · intro i hi
      exact chunkFrom_coverage D m (m - o - 1) (by omega) D.length 0 (by omega)
        i (Nat.zero_le i) hi
    · exact chunkFrom_text D m (m - o - 1) D.length 0 (by omega)
    · exact chunkFrom_chain D m (m - o - 1) o (by omega) D.length 0 (by omega)
    · exact chunkFrom_dropLast D m (m - o - 1) D.length 0 (by omega)
    · exact chunkFrom_len_le D m (m - o - 1) 0 (by omega)

/-- A concrete six-character document for the chunker witness. -/
def doc_fixture : List Char := ("abcdef").toList

/-- Witness for claim C5 at the concrete document with window 3 and
overlap 1. -/
theorem c5_chunk_coverage_and_overlap_witness :
    ∃ cs, chunk doc_fixture 3 1 = .ok cs ∧
      (∀ i, i < doc_fixture.length →
        ∃ c ∈ cs, c.start ≤ i ∧ i < c.start + c.text.length) ∧
      (∀ c ∈ cs, c.text = docSlice doc_fixture c.start (c.start + 3)) ∧
      List.Chain' (chunk_adjacent 1) cs ∧
      (∀ c ∈ cs.dropLast, c.text.length = 3) ∧
      (∀ c ∈ cs, c.text.length ≤ 3) :=
  c5_chunk_coverage_and_overlap doc_fixture 3 1 (by decide) (by decide)

/-! ## Index persistence

Modelled from the spec: the persisted FAISS index of src/rag.py
(save_local in get_vector_store, load_local in main) is an opaque
versioned blob holding a format version, the similarity-metric
identifier, the vector dimension and the (chunk, vector) collection;
the header is checked on load before the payload is trusted, and a
missing file, a corrupted header or a dimension mismatch fail with a
load error. -/

/-- An embedder: a fixed output dimension and an embedding function
whose outputs always have that dimension. -/
structure Embedder where
  dim : ℕ
  embed : List Char → List ℚ
  embed_dim : ∀ t, (embed t).length = dim

/-- The in-memory vector store: the fixed vector dimension and the
stored entries. -/
structure IndexStore where
  dim : ℕ
  entries : List IndexEntry
deriving DecidableEq

/-- Build the store from chunk texts: embed every chunk and keep the
(chunk, vector) pairs. -/
def build_index (chunks : List (List Char)) (emb : Embedder) : IndexStore :=
  ⟨emb.dim, chunks.map (fun c => ⟨c, emb.embed c⟩)⟩

/-- The persisted blob: version, metric identifier and dimension header
followed by the bulk payload. -/
structure IndexFile where
  version : ℕ
  metric : ℕ
  dim : ℕ
  payload : List (List Char × List ℚ)
deriving DecidableEq

/-- Supported format version. -/
def format_version : ℕ := 1

/-- Identifier of the fixed similarity metric. -/
def metric_id : ℕ := 0

/-- Serialize the store. -/
def save_index (idx : IndexStore) : IndexFile :=
  ⟨format_version, metric_id, idx.dim, idx.entries.map (fun e => (e.text, e.vec))⟩

inductive IndexLoadError where
  | missingFile
  | corruptHeader
  | dimensionMismatch
deriving DecidableEq, Repr

/-- Deserialize, paired with the embedder the caller intends to query
with (load_local in src/rag.py line 104 receives bedrock_embeddings): a
missing file fails; then the version/metric/dimension header is
validated; a persisted dimension different from the paired embedder
dimension is an incompatible index and fails; only afterwards is the
payload deserialized, and any vector whose dimension differs from the
header fails. -/
def load_index (emb : Embedder) (file : Option IndexFile) :
    Except IndexLoadError IndexStore :=
  match file with
  | none => .error .missingFile
  | some f =>
    if f.version = format_version ∧ f.metric = metric_id ∧ 0 < f.dim then
      if f.dim = emb.dim then
        if f.payload.all (fun pr => pr.2.length == f.dim) then
          .ok ⟨f.dim, f.payload.map (fun pr => ⟨pr.1, pr.2⟩)⟩
        else .error .dimensionMismatch
      else .error .dimensionMismatch
    else .error .corruptHeader

/-- A file system keyed by path, as the channel between the build phase
and the query phase. -/
def FS : Type := String → Option IndexFile

/-- Write the blob at the given path. -/
def fs_write (fs : FS) (p : String) (f : IndexFile) : FS :=
  fun q => if q = p then some f else fs q

/-- Claim C2: saving a freshly built index to a path and loading that
path back with the same embedder reconstructs a store with identical
dimension and identical (chunk, vector) entries, whose search results
coincide with those of the pre-save store for every query vector and
every k. -/
theorem c2_save_load_roundtrip (chunks : List (List Char)) (emb : Embedder)
    (fs : FS) (p : String) (hd : 0 < emb.dim) :
    ∃ idx2, load_index emb (fs_write fs p (save_index (build_index chunks emb)) p)
        = .ok idx2 ∧
      idx2.dim = (build_index chunks emb).dim ∧
      idx2.entries = (build_index chunks emb).entries ∧
      ∀ q k, search idx2.entries q k = search (build_index chunks emb).entries q k := by
  have hread : fs_write fs p (save_index (build_index chunks emb)) p
      = some (save_index (build_index chunks emb)) := by
    simp [fs_write]
  rw [hread]
  have hhead : (save_index (build_index chunks emb)).version = format_version ∧
      (save_index (build_index chunks emb)).metric = metric_id ∧
      0 < (save_index (build_index chunks emb)).dim := by
    refine ⟨rfl, rfl, ?_⟩
    simpa [save_index, build_index] using hd
  have hpay : (save_index (build_index chunks emb)).payload.all
      (fun pr => pr.2.length == (save_index (build_index chunks emb)).dim) = true := by
    simp only [save_index, build_index, List.all_eq_true, List.mem_map]
    rintro pr ⟨e, ⟨c, hc, rfl⟩, rfl⟩
    simpa using emb.embed_dim c
  refine ⟨⟨emb.dim, (build_index chunks emb).entries⟩, ?_, rfl, rfl, fun q k => rfl⟩
  rw [load_index]
  rw [if_pos hhead]
  rw [if_pos (show (save_index (build_index chunks emb)).dim = emb.dim from rfl)]
  rw [if_pos hpay]
  simp only [save_index, build_index, List.map_map]
  rfl

/-- A concrete embedder of dimension one for the witnesses. -/
def embedder_fixture : Embedder :=
  ⟨1, fun t => [(t.length : ℚ)], fun _ => rfl⟩

/-- The empty file system fixture. -/
def fs_empty : FS := fun _ => none

/-- Witness for claim C2: round-trip at a concrete two-chunk build. -/
theorem c2_save_load_roundtrip_witness :
    ∃ idx2, load_index embedder_fixture
        (fs_write fs_empty "faiss_index"
          (save_index (build_index [("ab").toList, ("cd").toList] embedder_fixture))
          "faiss_index") = .ok idx2 ∧
      idx2.dim = (build_index [("ab").toList, ("cd").toList] embedder_fixture).dim ∧
      idx2.entries =
        (build_index [("ab").toList, ("cd").toList] embedder_fixture).entries ∧
      ∀ q k, search idx2.entries q k =
        search (build_index [("ab").toList, ("cd").toList] embedder_fixture).entries q k :=
  c2_save_load_roundtrip [("ab").toList, ("cd").toList] embedder_fixture
    fs_empty "faiss_index" (by decide)

/-- Claim C3: loading a missing file fails with the missing-file error;
a file whose header is corrupted fails with the corrupt-header error
whatever its payload holds, so the payload is never deserialized or
trusted before the header is validated; a file written with an
embedding dimension incompatible with the embedder paired at load fails
with the dimension-mismatch error, again whatever its payload holds; a
well-formed compatible header over a payload containing a vector of the
wrong dimension fails with the dimension-mismatch error; and every
successful load implies the header was valid, its dimension matches the
paired embedder, and every stored vector matches the declared
dimension. -/
theorem c3_load_validation (emb : Embedder) (f : IndexFile) :
    load_index emb none = .error .missingFile ∧
    (¬ (f.version = format_version ∧ f.metric = metric_id ∧ 0 < f.dim) →
      ∀ payload2, load_index emb (some ⟨f.version, f.metric, f.dim, payload2⟩)
        = .error .corruptHeader) ∧
    ((f.version = format_version ∧ f.metric = metric_id ∧ 0 < f.dim) →
      f.dim ≠ emb.dim →
      ∀ payload2, load_index emb (some ⟨f.version, f.metric, f.dim, payload2⟩)
        = .error .dimensionMismatch) ∧
    ((f.version = format_version ∧ f.metric = metric_id ∧ 0 < f.dim) →
      f.dim = emb.dim →
      (∃ pr ∈ f.payload, pr.2.length ≠ f.dim) →
      load_index emb (some f) = .error .dimensionMismatch) ∧
    (∀ idx, load_index emb (some f) = .ok idx →
      f.version = format_version ∧ f.metric = metric_id ∧ 0 < f.dim ∧
      f.dim = emb.dim ∧ ∀ pr ∈ f.payload, pr.2.length = f.dim) := by
  refine ⟨rfl, ?_, ?_, ?_, ?_⟩
  · intro hbad payload2
    rw [load_index]
    exact if_neg hbad
  · intro hgood hdim payload2
    rw [load_index, if_pos hgood]
    rw [if_neg hdim]
  · intro hgood hdim hmism
    rw [load_index, if_pos hgood, if_pos hdim]
    have : ¬ f.payload.all (fun pr => pr.2.length == f.dim) = true := by
      simp only [List.all_eq_true, beq_iff_eq]
      intro hall
      obtain ⟨pr, hpr, hne⟩ := hmism
      exact hne (hall pr hpr)
    rw [if_neg this]
  · intro idx hok
    rw [load_index] at hok
    by_cases hgood : f.version = format_version ∧ f.metric = metric_id ∧ 0 < f.dim
    · rw [if_pos hgood] at hok
      by_cases hdim : f.dim = emb.dim
      · rw [if_pos hdim] at hok
        refine ⟨hgood.1, hgood.2.1, hgood.2.2, hdim, ?_⟩
        by_cases hall : f.payload.all (fun pr => pr.2.length == f.dim) = true
        · intro pr hpr
          have := (List.all_eq_true.mp hall) pr hpr
          exact beq_iff_eq.mp this
        · rw [if_neg hall] at hok
          cases hok
      · rw [if_neg hdim] at hok
        cases hok
    · rw [if_neg hgood] at hok
      cases hok

/-- A blob with an unsupported version number for the witness. -/
def corrupt_file_fixture : IndexFile := ⟨7, 0, 2, []⟩

/-- An internally consistent blob written with embedding dimension two,
incompatible with the dimension-one embedder fixture paired at load. -/
def foreign_dim_file_fixture : IndexFile :=
  ⟨1, 0, 2, [(("ab").toList, [3, 4])]⟩

/-- A blob whose header is valid and compatible but whose payload holds
a vector of the wrong dimension for the witness. -/
def mismatched_file_fixture : IndexFile :=
  ⟨1, 0, 1, [(("ab").toList, [3, 4])]⟩

/-- Witness for claim C3: the missing file, the corrupt header, the
incompatible embedding dimension and the mismatched payload dimension
each fail with the corresponding error when loaded with the
dimension-one embedder fixture. -/
theorem c3_load_validation_witness :
    load_index embedder_fixture none = .error .missingFile ∧
    load_index embedder_fixture (some ⟨corrupt_file_fixture.version,
      corrupt_file_fixture.metric, corrupt_file_fixture.dim,
      corrupt_file_fixture.payload⟩) = .error .corruptHeader ∧
    load_index embedder_fixture (some ⟨foreign_dim_file_fixture.version,
      foreign_dim_file_fixture.metric, foreign_dim_file_fixture.dim,
      foreign_dim_file_fixture.payload⟩) = .error .dimensionMismatch ∧
    load_index embedder_fixture (some mismatched_file_fixture)
      = .error .dimensionMismatch := by
  refine ⟨(c3_load_validation embedder_fixture corrupt_file_fixture).1, ?_, ?_, ?_⟩
  · exact (c3_load_validation embedder_fixture corrupt_file_fixture).2.1 (by decide)
      corrupt_file_fixture.payload
  · exact (c3_load_validation embedder_fixture foreign_dim_file_fixture).2.2.1
      (by decide) (by decide) foreign_dim_file_fixture.payload
  · exact (c3_load_validation embedder_fixture mismatched_file_fixture).2.2.2.1
      (by decide) (by decide) ⟨(("ab").toList, [3, 4]), by decide, by decide⟩

/-! ## Answering pipeline

get_response_llm (src/rag.py lines 74-85) builds a retrieval chain over
the store with similarity search and k fixed to 3, asks it to return the
source documents alongside the generated text, invokes it on the query,
and returns only the "result" field of the chain output.  The chain body
(embed the query, retrieve, fill the template, call the model) is
library code and is modelled from the spec; provider calls are fallible
functions whose error carries the provider message. -/

inductive ProviderError where
  | embeddingError (provider_message : List Char)
  | generationError (provider_message : List Char)
deriving DecidableEq, Repr

/-- A query embedder: the text of the question to its vector, or an
embedding failure with the provider message. -/
def QueryEmbedder : Type := List Char → Except (List Char) (List ℚ)

/-- A generator: the assembled prompt to the generated text, or a
generation failure with the provider message. -/
def Generator : Type := List Char → Except (List Char) (List Char)

/-- Retrieval as configured in get_response_llm: similarity search with
k fixed to 3. -/
def retrieve3 (store : List IndexEntry) (qv : List ℚ) : List (IndexEntry × ℚ) :=
  searchCore store qv 3

/-- The output of the retrieval chain: the generated text together with
the source documents it was grounded on. -/
structure RAGOutput where
  result : List Char
  source_documents : List (List Char)
deriving DecidableEq, Repr

/-- One invocation of the retrieval chain: embed the query, retrieve the
top 3 chunks, assemble the prompt, call the generator; any provider
failure aborts the stage and is propagated with its message. -/
def qa_invoke (emb : QueryEmbedder) (llm : Generator)
    (store : List IndexEntry) (query : List Char) :
    Except ProviderError RAGOutput :=
  match emb query with
  | .error msg => .error (.embeddingError msg)
  | .ok qv =>
    let docs := (retrieve3 store qv).map (fun pr => pr.1.text)
    match llm (assemble docs query) with
    | .error msg => .error (.generationError msg)
    | .ok txt => .ok ⟨txt, docs⟩

/-- get_response_llm: invoke the chain and return only the result
field of its output (src/rag.py line 85). -/
def get_response_llm (emb : QueryEmbedder) (llm : Generator)
    (store : List IndexEntry) (query : List Char) :
    Except ProviderError (List Char) :=
  (qa_invoke emb llm store query).map RAGOutput.result

/-- A query embedder fixture that always returns the vector [1, 0]. -/
def emb_fixture : QueryEmbedder := fun _ => .ok [1, 0]

/-- A generator fixture that always answers with the same text. -/
def llm_fixture : Generator := fun _ => .ok ("hi").toList

/-- A one-entry store whose single chunk is "alpha". -/
def store_a : List IndexEntry := [⟨("alpha").toList, [1, 0]⟩]

/-- A one-entry store whose single chunk is "gamma". -/
def store_b : List IndexEntry := [⟨("gamma").toList, [1, 0]⟩]

/-- Counterexample to claim C4: two runs of get_response_llm grounded on
different source chunks return identical values, while the chain outputs
they project differ exactly in their source documents — so the value
returned to the caller cannot contain the retrieval result; the sources
are dropped at the return of get_response_llm. -/
theorem c4_counterexample_sources_dropped :
    get_response_llm emb_fixture llm_fixture store_a ("q").toList =
      get_response_llm emb_fixture llm_fixture store_b ("q").toList ∧
    (qa_invoke emb_fixture llm_fixture store_a ("q").toList).map
        RAGOutput.source_documents ≠
      (qa_invoke emb_fixture llm_fixture store_b ("q").toList).map
        RAGOutput.source_documents := by
  constructor
  · rfl
  · intro h
    have h1 : (qa_invoke emb_fixture llm_fixture store_a ("q").toList).map
        RAGOutput.source_documents = .ok [("alpha").toList] := rfl
    have h2 : (qa_invoke emb_fixture llm_fixture store_b ("q").toList).map
        RAGOutput.source_documents = .ok [("gamma").toList] := rfl
    rw [h1, h2] at h
    injection h with h
    exact absurd h (by decide)

/-- Claim C4 as amended: the chain output inside get_response_llm does
carry both the generated text and the source documents retrieved for
the query, but get_response_llm itself returns only the result field,
so the sources never reach its caller. -/
theorem c4_amended_chain_keeps_sources (emb : QueryEmbedder) (llm : Generator)
    (store : List IndexEntry) (query : List Char) :
    get_response_llm emb llm store query =
      (qa_invoke emb llm store query).map RAGOutput.result ∧
    (∀ out, qa_invoke emb llm store query = .ok out →
      ∃ qv, emb query = .ok qv ∧
        out.source_documents = (retrieve3 store qv).map (fun pr => pr.1.text) ∧
        llm (assemble out.source_documents query) = .ok out.result) := by
  refine ⟨rfl, ?_⟩
  intro out hout
  rw [qa_invoke] at hout
  cases hemb : emb query with
  | error msg => rw [hemb] at hout; cases hout
  | ok qv =>
    rw [hemb] at hout
    refine ⟨qv, rfl, ?_⟩
    cases hllm : llm (assemble ((retrieve3 store qv).map (fun pr => pr.1.text)) query) with
    | error msg => simp only [hllm] at hout; cases hout
    | ok txt =>
      simp only [hllm] at hout
      cases hout
      exact ⟨rfl, hllm⟩

/-- The chain output of the amended-claim witness run. -/
def out_fixture : RAGOutput := ⟨("hi").toList, [("alpha").toList]⟩

/-- Witness for the amended claim C4 at the concrete fixtures. -/
theorem c4_amended_chain_keeps_sources_witness :
    get_response_llm emb_fixture llm_fixture store_a ("q").toList =
      (qa_invoke emb_fixture llm_fixture store_a ("q").toList).map RAGOutput.result ∧
    ∃ qv, emb_fixture ("q").toList = .ok qv ∧
      out_fixture.source_documents = (retrieve3 store_a qv).map (fun pr => pr.1.text) ∧
      llm_fixture (assemble out_fixture.source_documents ("q").toList)
        = .ok out_fixture.result := by
  have h := c4_amended_chain_keeps_sources emb_fixture llm_fixture store_a ("q").toList
  exact ⟨h.1, h.2 out_fixture rfl⟩

/-- Claim C8: the answering pipeline is all-or-nothing.  An embedding
failure aborts it with the provider message preserved; a generation
failure aborts it with the provider message preserved; every successful
return is exactly the generator output for the fully assembled grounded
prompt, never a degraded substitute; and each invocation either
succeeds with a text or fails with a reported error. -/
theorem c8_pipeline_all_or_nothing (emb : QueryEmbedder) (llm : Generator)
    (store : List IndexEntry) (query : List Char) :
    (∀ msg, emb query = .error msg →
      get_response_llm emb llm store query = .error (.embeddingError msg)) ∧
    (∀ qv msg, emb query = .ok qv →
      llm (assemble ((retrieve3 store qv).map (fun pr => pr.1.text)) query)
        = .error msg →
      get_response_llm emb llm store query = .error (.generationError msg)) ∧
    (∀ txt, get_response_llm emb llm store query = .ok txt →
      ∃ qv, emb query = .ok qv ∧
        llm (assemble ((retrieve3 store qv).map (fun pr => pr.1.text)) query)
          = .ok txt) ∧
    ((∃ txt, get_response_llm emb llm store query = .ok txt) ∨
     (∃ e, get_response_llm emb llm store query = .error e)) := by
  refine ⟨?_, ?_, ?_, ?_⟩
  · intro msg hmsg
    simp [get_response_llm, qa_invoke, hmsg, Except.map]
  · intro qv msg hqv hmsg
    simp [get_response_llm, qa_invoke, hqv, hmsg, Except.map]
  · intro txt htxt
    rw [get_response_llm, qa_invoke] at htxt
    cases hemb : emb query with
    | error msg => rw [hemb] at htxt; cases htxt
    | ok qv =>
      rw [hemb] at htxt
      refine ⟨qv, rfl, ?_⟩
      cases hllm : llm (assemble ((retrieve3 store qv).map (fun pr => pr.1.text)) query) with
      | error msg =>
        simp only [hllm, Except.map] at htxt
        exact Except.noConfusion htxt
      | ok out =>
        simp only [hllm, Except.map] at htxt
        injection htxt with h
        rw [h]
  · cases hres : get_response_llm emb llm store query with
    | error e => exact Or.inr ⟨e, rfl⟩
    | ok txt => exact Or.inl ⟨txt, rfl⟩

/-- A query embedder fixture that always fails with the provider
message "boom". -/
def emb_failing : QueryEmbedder := fun _ => .error ("boom").toList

/-- Witness for claim C8: at the concrete fixtures a failing embedder
aborts with its message preserved, and the successful run is either an
ok text or a reported error. -/
theorem c8_pipeline_all_or_nothing_witness :
    get_response_llm emb_failing llm_fixture store_a ("q").toList
      = .error (.embeddingError (("boom").toList)) ∧
    ((∃ txt, get_response_llm emb_fixture llm_fixture store_a ("q").toList = .ok txt) ∨
     (∃ e, get_response_llm emb_fixture llm_fixture store_a ("q").toList = .error e)) := by
  constructor
  · exact (c8_pipeline_all_or_nothing emb_failing llm_fixture store_a
      ("q").toList).1 (("boom").toList) rfl
  · exact (c8_pipeline_all_or_nothing emb_fixture llm_fixture store_a
      ("q").toList).2.2.2

/-- Claim C9: the retrieval count inside get_response_llm is fixed at
three: whenever the query embeds successfully, the chain retrieves
exactly the payload of a k = 3 similarity search, whose length is
min 3 (store size), and every successful chain output is grounded on
exactly those chunks; no argument of get_response_llm selects k. -/
theorem c9_retrieval_k_fixed_at_three (emb : QueryEmbedder) (llm : Generator)
    (store : List IndexEntry) (query : List Char) (qv : List ℚ)
    (hqv : emb query = .ok qv) :
    search store qv 3 = .ok (retrieve3 store qv) ∧
    (retrieve3 store qv).length = min 3 store.length ∧
    ∀ out, qa_invoke emb llm store query = .ok out →
      out.source_documents = (retrieve3 store qv).map (fun pr => pr.1.text) := by
  refine ⟨?_, ?_, ?_⟩
  · rw [search, if_neg (by omega)]
    rfl
  · exact searchCore_length store qv 3
  · intro out hout
    rw [qa_invoke, hqv] at hout
    cases hllm : llm (assemble ((retrieve3 store qv).map (fun pr => pr.1.text)) query) with
    | error msg =>
      simp only [hllm] at hout
      exact Except.noConfusion hout
    | ok txt =>
      simp only [hllm] at hout
      cases hout
      rfl

/-- Witness for claim C9 at the concrete fixtures: the single stored
entry is retrieved (min 3 1 = 1) and grounds the output. -/
theorem c9_retrieval_k_fixed_at_three_witness :
    search store_a [1, 0] 3 = .ok (retrieve3 store_a [1, 0]) ∧
    (retrieve3 store_a [1, 0]).length = min 3 store_a.length ∧
    ∀ out, qa_invoke emb_fixture llm_fixture store_a ("q").toList = .ok out →
      out.source_documents = (retrieve3 store_a [1, 0]).map (fun pr => pr.1.text) :=
  c9_retrieval_k_fixed_at_three emb_fixture llm_fixture store_a ("q").toList
    [1, 0] rfl

/-! ## Build phase and query phase (src/rag.py lines 57-59 and 101-107)

get_vector_store builds the store from the documents and saves it at the
fixed path "faiss_index", returning nothing; the Send branch of main
loads the index from that same fixed path and answers with it.  The file
system is threaded explicitly as state. -/

/-- get_vector_store: build the index from the documents and persist it
at the fixed path; the function returns no index, only the updated file
system. -/
def get_vector_store (docs : List (List Char)) (emb : Embedder) (fs : FS) :
    Unit × FS :=
  ((), fs_write fs "faiss_index" (save_index (build_index docs emb)))

inductive AppError where
  | indexUnavailable (e : IndexLoadError)
  | provider (e : ProviderError)
deriving DecidableEq, Repr

/-- The Send branch of main: load the index from the fixed path, paired
with the ambient embedder, and run get_response_llm on it with the user
question. -/
def send_handler (bed : Embedder) (emb : QueryEmbedder) (llm : Generator)
    (fs : FS) (question : List Char) : Except AppError (List Char) :=
  match load_index bed (fs "faiss_index") with
  | .error e => .error (.indexUnavailable e)
  | .ok idx =>
    match get_response_llm emb llm idx.entries question with
    | .error e => .error (.provider e)
    | .ok txt => .ok txt

/-- Claim C10: building the vector store returns no index; its only
effect on the file system is writing the blob of the freshly built
index at the fixed path "faiss_index", every other path being left
untouched; and the query phase reads exclusively that path: two file
systems agreeing at "faiss_index" give identical answers, so the
on-disk blob at that path is the sole channel from the build phase to
the query phase. -/
theorem c10_fixed_path_sole_channel (docs : List (List Char)) (emb : Embedder)
    (fs : FS) :
    (get_vector_store docs emb fs).1 = () ∧
    (get_vector_store docs emb fs).2 "faiss_index"
      = some (save_index (build_index docs emb)) ∧
    (∀ p, p ≠ "faiss_index" → (get_vector_store docs emb fs).2 p = fs p) ∧
    (∀ fs2 bed embq llm q, fs "faiss_index" = fs2 "faiss_index" →
      send_handler bed embq llm fs q = send_handler bed embq llm fs2 q) := by
  refine ⟨rfl, ?_, ?_, ?_⟩
  · simp [get_vector_store, fs_write]
  · intro p hp
    simp [get_vector_store, fs_write, hp]
  · intro fs2 bed embq llm q hagree
    rw [send_handler, send_handler, hagree]

/-- Witness for claim C10 at concrete fixtures: another path is left
untouched by the build, and a second file system agreeing at the fixed
path answers identically. -/
theorem c10_fixed_path_sole_channel_witness :
    (get_vector_store [("ab").toList] embedder_fixture fs_empty).2 "other"
      = fs_empty "other" ∧
    send_handler embedder_fixture emb_fixture llm_fixture fs_empty ("q").toList
      = send_handler embedder_fixture emb_fixture llm_fixture
          (fun p => if p = "faiss_index" then fs_empty p else some corrupt_file_fixture)
          ("q").toList := by
  constructor
  · exact (c10_fixed_path_sole_channel [("ab").toList] embedder_fixture
      fs_empty).2.2.1 "other" (by decide)
  · exact (c10_fixed_path_sole_channel [("ab").toList] embedder_fixture
      fs_empty).2.2.2
      (fun p => if p = "faiss_index" then fs_empty p else some corrupt_file_fixture)
      embedder_fixture emb_fixture llm_fixture ("q").toList (by simp)
